import Mathlib

/-!
Shallow embedding of the create-user form validation pipeline of this
repository.  The repository has two variants of the `createUserFormSchema`
zod schema: the variant with the avatar rule (`src/unnamed/part_000`) and the
variant without it (`src/src/App.tsx`).  JavaScript strings are modelled as
lists of characters; each zod field chain is modelled as a function from the
raw field value to a field result, where a JavaScript exception thrown inside
a refinement or transform is represented explicitly by a `thrown` outcome.
-/

namespace FormSpec

/-- A JavaScript string, modelled as its list of characters. -/
abbrev JStr := List Char

/-- The space character, the separator in `name.split(' ')`. -/
def spaceChar : Char := Char.ofNat 32

/-- The code points JavaScript `String.prototype.trim` strips: the WhiteSpace
production (tab, vertical tab, form feed, space, no-break space, BOM and the
Unicode space separators) and the LineTerminator production. -/
def wsCode (n : Nat) : Prop :=
  n = 9 ∨ n = 10 ∨ n = 11 ∨ n = 12 ∨ n = 13 ∨ n = 32 ∨ n = 160 ∨ n = 0x1680 ∨
    (0x2000 ≤ n ∧ n ≤ 0x200a) ∨ n = 0x2028 ∨ n = 0x2029 ∨ n = 0x202f ∨
    n = 0x205f ∨ n = 0x3000 ∨ n = 0xfeff

instance (n : Nat) : Decidable (wsCode n) := by unfold wsCode; infer_instance

/-- A character JavaScript `trim` strips. -/
def jsIsWhitespace (c : Char) : Bool := decide (wsCode c.toNat)

/-- JavaScript `String.prototype.trim`: drop leading and trailing whitespace. -/
def jsTrim (s : JStr) : JStr :=
  ((s.dropWhile jsIsWhitespace).reverse.dropWhile jsIsWhitespace).reverse

/-- JavaScript `String.prototype.split` with a one-character separator:
`"".split(sep)` is `[""]`, consecutive separators produce empty segments,
and no segment contains the separator. -/
def jsSplit (sep : Char) : JStr → List JStr
  | [] => [[]]
  | c :: cs =>
    let rest := jsSplit sep cs
    if c = sep then [] :: rest
    else (c :: rest.headD []) :: rest.tail

/-- JavaScript `Array.prototype.join` with a one-character separator. -/
def jsJoin (sep : Char) : List JStr → JStr
  | [] => []
  | [w] => w
  | w :: x :: ws => w ++ sep :: jsJoin sep (x :: ws)

/-- JavaScript `String.prototype.toLowerCase`, restricted to basic latin
letters (the only letters the validated inputs in the examples use). -/
def jsToLower (s : JStr) : JStr := s.map Char.toLower

/-- One step of the `name` transform:
`word[0].toLocaleUpperCase().concat(word.substring(1))`.
On the empty word, `word[0]` is `undefined` and calling `toLocaleUpperCase`
on it throws a `TypeError`; this is modelled by `none`. -/
def capitalizeWord (w : JStr) : Option JStr :=
  match w with
  | [] => none
  | c :: cs => some (c.toUpper :: cs)

/-- JavaScript `Array.prototype.map` over `capitalizeWord`: applied left to
right, and a thrown `TypeError` in any call escapes the whole map (`none`). -/
def capWords : List JStr → Option (List JStr)
  | [] => some []
  | w :: ws =>
    match capitalizeWord w, capWords ws with
    | some w2, some ws2 => some (w2 :: ws2)
    | _, _ => none

/-- The `name` transform of `createUserFormSchema` (both variants):
`name.trim().split(' ').map((word) => word[0].toLocaleUpperCase().concat(word.substring(1))).join(' ')`.
`none` models the `TypeError` thrown when some split segment is empty. -/
def normalizeName (s : JStr) : Option JStr :=
  (capWords (jsSplit spaceChar (jsTrim s))).map (jsJoin spaceChar)

/-- JavaScript `String.prototype.endsWith`. -/
def jsEndsWith (s suffix : JStr) : Bool :=
  List.isSuffixOf suffix s

/-- The file held by `files.item(0)` of the avatar `FileList`: the raw shape
of a DOM `File` that the avatar rules inspect (`name`, `size`, `type`). -/
structure FileData where
  name : String
  size : Nat
  mimeType : String
deriving DecidableEq, Repr

/-- `MAX_FILE_SIZE = 5 * 1024 * 1024` from `src/unnamed/part_000`. -/
def MAX_FILE_SIZE : Nat := 5 * 1024 * 1024

/-- `ACCEPTED_IMAGE_TYPES` from `src/unnamed/part_000`. -/
def ACCEPTED_IMAGE_TYPES : List String :=
  ["image/jpeg", "image/jpg", "image/png", "image/webp"]

/-- A path addressing the field a validation issue is attached to. -/
inductive FieldPath where
  | avatar : FieldPath
  | name : FieldPath
  | email : FieldPath
  | password : FieldPath
  | techs : FieldPath
  | techTitle (i : Nat) : FieldPath
  | techKnowledge (i : Nat) : FieldPath
deriving DecidableEq, Repr

/-- One zod issue: the addressed field and its user-facing message. -/
structure ValidationError where
  field : FieldPath
  message : String
deriving DecidableEq, Repr

/-- An element of `techs` in the part_000 variant: `{ title: string }`. -/
structure TechInput where
  title : JStr
deriving DecidableEq, Repr

/-- An element of `techs` in the App.tsx variant: `{ title, knowledge }`,
where `knowledge` is the value after the JavaScript `Number(...)` coercion
performed by `z.coerce.number()`: `none` models `NaN` (absent or
non-numeric input), `some k` a numeric value. -/
structure AppTech where
  title : JStr
  knowledge : Option ℚ
deriving DecidableEq, Repr

/-- The raw form record handed to the resolver on submit: the avatar
`FileList` is represented by its `item(0)` (`none` when no file is picked). -/
structure FormInput where
  avatar : Option FileData
  name : JStr
  email : JStr
  password : JStr
  techs : List TechInput
deriving DecidableEq, Repr

/-- The payload produced when every field of the part_000 schema passes:
the avatar transformed to its single file, `name` capitalized, `email`
lower-cased. -/
structure NormalizedUser where
  avatar : FileData
  name : JStr
  email : JStr
  password : JStr
  techs : List TechInput
deriving DecidableEq, Repr

/-- Outcome of parsing one field of the schema: the transformed value on
success, the collected issues on failure, or a thrown JavaScript
exception escaping the parse. -/
inductive FieldResult (α : Type) where
  | ok (val : α) : FieldResult α
  | errs (es : List ValidationError) : FieldResult α
  | thrown : FieldResult α
deriving DecidableEq, Repr

/-- The issues a field contributed (empty on success or on a throw). -/
def FieldResult.errors : FieldResult α → List ValidationError
  | .ok _ => []
  | .errs es => es
  | .thrown => []

/-- Whether the field parse threw. -/
def FieldResult.isThrown : FieldResult α → Bool
  | .thrown => true
  | _ => false

/-- Outcome of `safeParse` of the whole object schema. -/
inductive ParseResult where
  | valid (u : NormalizedUser) : ParseResult
  | invalid (errors : List ValidationError) : ParseResult
  | thrown : ParseResult
deriving DecidableEq, Repr

/-- The avatar chain of the part_000 variant:
`z.instanceof(FileList).refine(!!files.item(0), ...).refine(files.item(0)!.size <= MAX_FILE_SIZE, ...).refine(ACCEPTED_IMAGE_TYPES.includes(files.item(0)!.type), ...).transform(...)`.
zod executes a later refinement even when an earlier one failed (a failed
refinement marks the parse dirty, it does not abort it), so with no file
present the first refinement records its issue and the second refinement
then evaluates `files.item(0)!.size` on `null`, throwing a `TypeError`.
The transform runs only when the whole chain is clean. -/
def parseAvatar (files : Option FileData) : FieldResult FileData :=
  match files with
  | none => .thrown
  | some f =>
    let es :=
      (if f.size ≤ MAX_FILE_SIZE then [] else [⟨FieldPath.avatar, "Tamanho máximo de 5MB"⟩])
      ++ (if ACCEPTED_IMAGE_TYPES.contains f.mimeType then []
          else [⟨FieldPath.avatar, "Formato de imagem inválido"⟩])
    if es.isEmpty then .ok f else .errs es

/-- The `name` chain (identical in both variants):
`z.string().nonempty(...).transform(...)`.  The transform runs only when the
`nonempty` check passed; a `TypeError` thrown inside it escapes the parse. -/
def parseName (name : JStr) : FieldResult JStr :=
  if name.isEmpty then .errs [⟨FieldPath.name, "O nome é obrigatório"⟩]
  else
    match normalizeName name with
    | some n => .ok n
    | none => .thrown

/-- Modelled from the spec: the shape accepted by zod's `.email()` check
(library code, not under `src/`) — "a standard local@domain email shape":
exactly one `@`, a nonempty local part, and a domain of at least two
nonempty dot-separated labels.  The predicate is structural, hence
insensitive to letter case, as the library check is. -/
def emailShape (s : JStr) : Bool :=
  match jsSplit (Char.ofNat 64) s with
  | [loc, dom] =>
    !loc.isEmpty &&
      (let labs := jsSplit (Char.ofNat 46) dom
       decide (2 ≤ labs.length) && labs.all (fun l => !l.isEmpty))
  | _ => false

/-- The `email` chain of the part_000 variant:
`z.string().nonempty(...).email(...).toLowerCase()`.  The string checks all
run (a failed check does not stop later ones), then the `toLowerCase`
transform is applied to the value. -/
def parseEmail000 (email : JStr) : FieldResult JStr :=
  let es :=
    (if email.isEmpty then [⟨FieldPath.email, "O e-mail é obrigatório"⟩] else [])
    ++ (if emailShape email then [] else [⟨FieldPath.email, "Formato de e-mail inválido"⟩])
  if es.isEmpty then .ok (jsToLower email) else .errs es

/-- The `email` chain of the App.tsx variant: the same string checks and
`toLowerCase`, then `.refine((email) => email.endsWith('gmail.com'), ...)`;
zod runs the refinement on the lower-cased value even when the string
checks already failed, appending its issue after theirs. -/
def parseEmailApp (email : JStr) : FieldResult JStr :=
  let lowered := jsToLower email
  let es :=
    (if email.isEmpty then [⟨FieldPath.email, "O e-mail é obrigatório"⟩] else [])
    ++ (if emailShape email then [] else [⟨FieldPath.email, "Formato de e-mail inválido"⟩])
    ++ (if jsEndsWith lowered ("gmail.com".data) then []
        else [⟨FieldPath.email, "O e-mail precisa ser gmail"⟩])
  if es.isEmpty then .ok lowered else .errs es

/-- The `password` chain of the part_000 variant:
`z.string().nonempty(...).min(6, ...)`; both string checks run. -/
def parsePassword000 (password : JStr) : FieldResult JStr :=
  let es :=
    (if password.isEmpty then [⟨FieldPath.password, "A senha é obrigatória"⟩] else [])
    ++ (if password.length < 6
        then [⟨FieldPath.password, "A senha precisa ter no mínimo 6 caracteres"⟩] else [])
  if es.isEmpty then .ok password else .errs es

/-- The issues of the part_000 `techs` elements: element `i` is
`z.object({ title: z.string().nonempty('O nome da tecnologia é obrigatório') })`,
issues collected in list order. -/
def techTitleErrsFrom : Nat → List TechInput → List ValidationError
  | _, [] => []
  | i, t :: ts =>
    (if t.title.isEmpty then [⟨FieldPath.techTitle i, "O nome da tecnologia é obrigatório"⟩]
     else [])
    ++ techTitleErrsFrom (i + 1) ts

/-- The `techs` chain of the part_000 variant:
`z.array(z.object({ title: ... })).min(2, 'Insira pelo menos 2 tecnologias')`.
zod's array parse records the `min` issue first, then parses the elements
in order; the value passes through unchanged. -/
def parseTechs000 (ts : List TechInput) : FieldResult (List TechInput) :=
  let es :=
    (if ts.length < 2 then [⟨FieldPath.techs, "Insira pelo menos 2 tecnologias"⟩] else [])
    ++ techTitleErrsFrom 0 ts
  if es.isEmpty then .ok ts else .errs es

/-- Combination of the five field results of the part_000 object schema, in
shape-declaration order (avatar, name, email, password, techs): a thrown
exception in any field escapes the whole parse; the parse succeeds only
when every field succeeded; otherwise the issues are concatenated in
declaration order. -/
def combineResults (ra : FieldResult FileData) (rn re rp : FieldResult JStr)
    (rt : FieldResult (List TechInput)) : ParseResult :=
  if ra.isThrown || rn.isThrown || re.isThrown || rp.isThrown || rt.isThrown then .thrown
  else
    match ra, rn, re, rp, rt with
    | .ok a, .ok n, .ok e, .ok p, .ok t => .valid ⟨a, n, e, p, t⟩
    | ra, rn, re, rp, rt =>
      .invalid (ra.errors ++ rn.errors ++ re.errors ++ rp.errors ++ rt.errors)

/-- `safeParse` of the part_000 `createUserFormSchema` on a raw form record:
the Aggregate Validator of the spec. -/
def parseUser (input : FormInput) : ParseResult :=
  combineResults (parseAvatar input.avatar) (parseName input.name)
    (parseEmail000 input.email) (parsePassword000 input.password)
    (parseTechs000 input.techs)

/-- The issues of one `techs` element of the App.tsx variant:
`z.object({ title: z.string().nonempty('O título é obrigatório'), knowledge: z.coerce.number().min(1).max(100) })`.
`z.coerce.number()` rejects a `NaN` coercion (absent or non-numeric input,
modelled `none`) with an invalid-type issue; a numeric value is checked
against both bounds, the checks all running.  Messages are zod's default
English messages. -/
def parseTechApp (i : Nat) (t : AppTech) : List ValidationError :=
  (if t.title.isEmpty then [⟨FieldPath.techTitle i, "O título é obrigatório"⟩] else [])
  ++ (match t.knowledge with
      | none => [⟨FieldPath.techKnowledge i, "Expected number, received nan"⟩]
      | some k =>
        (if k < 1
         then [⟨FieldPath.techKnowledge i, "Number must be greater than or equal to 1"⟩]
         else [])
        ++ (if 100 < k
            then [⟨FieldPath.techKnowledge i, "Number must be less than or equal to 100"⟩]
            else []))

/-- The issues of the App.tsx `techs` elements, collected in list order. -/
def techAppErrsFrom : Nat → List AppTech → List ValidationError
  | _, [] => []
  | i, t :: ts => parseTechApp i t ++ techAppErrsFrom (i + 1) ts

/-- The `techs` chain of the App.tsx variant:
`z.array(z.object({ title, knowledge })).min(2, 'Insira pelo menos 2 tecnologias')`;
the `min` issue is recorded first, then the element issues in order. -/
def parseTechsApp (ts : List AppTech) : FieldResult (List AppTech) :=
  let es :=
    (if ts.length < 2 then [⟨FieldPath.techs, "Insira pelo menos 2 tecnologias"⟩] else [])
    ++ techAppErrsFrom 0 ts
  if es.isEmpty then .ok ts else .errs es

/-- The `techs` element appended by `addNewTech` in App.tsx:
`append({ title: '', knowledge: 0 })`. -/
def addNewTechDefault : AppTech := ⟨[], some 0⟩

/-- A character of the class `[a-z]` of the password-strength regex. -/
def lowerCls (c : Char) : Bool := decide (Char.ofNat 97 ≤ c) && decide (c ≤ Char.ofNat 122)

/-- A character of the class `[A-Z]` of the password-strength regex. -/
def upperCls (c : Char) : Bool := decide (Char.ofNat 65 ≤ c) && decide (c ≤ Char.ofNat 90)

/-- A character of the class `[0-9]` of the password-strength regex. -/
def digitCls (c : Char) : Bool := decide (Char.ofNat 48 ≤ c) && decide (c ≤ Char.ofNat 57)

/-- A character of the class `[^A-Za-z0-9]` of the password-strength regex. -/
def symbolCls (c : Char) : Bool := !(lowerCls c || upperCls c || digitCls c)

/-- A JavaScript regex line terminator, which the metacharacter `.` does not
match: `\n`, `\r`, U+2028, U+2029. -/
def isLineTerm (c : Char) : Bool :=
  c = Char.ofNat 10 || c = Char.ofNat 13 || c = Char.ofNat 0x2028 || c = Char.ofNat 0x2029

/-- Semantics of one lookahead `(?=.*C)` of the strength regex at a given
position, applied to the suffix starting there: some character of class `C`
occurs in the suffix with no line terminator before it (the `.`s of `.*`
cannot cross a line terminator). -/
def lookaheadCls (cls : Char → Bool) : JStr → Bool
  | [] => false
  | c :: rest => cls c || (!isLineTerm c && lookaheadCls cls rest)

/-- Semantics of the lookahead `(?=.{8,})` at a given position: at least 8
characters follow, the first 8 of them no line terminators. -/
def lookaheadLen8 (suffix : JStr) : Bool :=
  decide (8 ≤ suffix.length) && (suffix.take 8).all (fun c => !isLineTerm c)

/-- All five lookaheads of the strength regex hold at one position. -/
def strongAt (suffix : JStr) : Bool :=
  lookaheadCls lowerCls suffix && lookaheadCls upperCls suffix
    && lookaheadCls digitCls suffix && lookaheadCls symbolCls suffix
    && lookaheadLen8 suffix

/-- `isPasswordStrong` from `src/unnamed/part_000`:
`new RegExp('(?=.*[a-z])(?=.*[A-Z])(?=.*[0-9])(?=.*[^A-Za-z0-9])(?=.{8,})').test(userPassword)`.
The regex is unanchored, so `test` succeeds when the five lookaheads hold
together at some position of the string. -/
def isPasswordStrong (s : JStr) : Bool :=
  (List.range (s.length + 1)).any (fun p => strongAt (s.drop p))

/-- The result of the awaited supabase storage upload, as destructured by
`createUser`: `const { data: uploadData, error } = await supabse.storage...upload(...)`.
The client reports failure through the `error` component, not by throwing. -/
structure UploadResult where
  uploadData : Option String
  error : Option String
deriving DecidableEq, Repr

/-- An abstract textual rendering of `JSON.stringify(data, null, 2)` on the
validated payload, in field order avatar, name, email, password, techs. -/
def renderUser (u : NormalizedUser) : String :=
  String.mk
    (("avatar:".data ++ u.avatar.name.data ++ " name:".data ++ u.name
      ++ " email:".data ++ u.email ++ " password:".data ++ u.password
      ++ " techs:".data) ++ (u.techs.map (fun t => t.title)).flatten)

/-- `createUser` from `src/unnamed/part_000`: awaits the storage upload,
destructures `uploadData` and `error` from its result, and then sets the
displayed output to the JSON of the validated form data.  Neither
destructured component is read afterwards. -/
def createUser (data : NormalizedUser) (res : UploadResult) : String :=
  let _uploadData := res.uploadData
  let _error := res.error
  renderUser data

/-! ### Character-level lemmas -/

theorem char_toNat_ofNat {n : Nat} (h : n.isValidChar) : (Char.ofNat n).toNat = n := by
  simp [Char.ofNat, dif_pos h, Char.ofNatAux, Char.toNat, UInt32.toNat]

theorem char_eq_iff_toNat {a b : Char} : a = b ↔ a.toNat = b.toNat := by
  constructor
  · intro h; rw [h]
  · intro h
    have h2 := congrArg Char.ofNat h
    rwa [Char.ofNat_toNat, Char.ofNat_toNat] at h2

theorem toNat_toUpper (c : Char) :
    c.toUpper.toNat = if 97 ≤ c.toNat ∧ c.toNat ≤ 122 then c.toNat - 32 else c.toNat := by
  show Char.toNat (if c.toNat ≥ 97 ∧ c.toNat ≤ 122 then Char.ofNat (c.toNat - 32) else c) = _
  split_ifs with h1
  · exact char_toNat_ofNat (Or.inl (by omega))
  · rfl

theorem toNat_toLower (c : Char) :
    c.toLower.toNat = if 65 ≤ c.toNat ∧ c.toNat ≤ 90 then c.toNat + 32 else c.toNat := by
  show Char.toNat (if c.toNat ≥ 65 ∧ c.toNat ≤ 90 then Char.ofNat (c.toNat + 32) else c) = _
  split_ifs with h1
  · exact char_toNat_ofNat (Or.inl (by omega))
  · rfl

theorem toUpper_toUpper (c : Char) : c.toUpper.toUpper = c.toUpper := by
  rw [char_eq_iff_toNat, toNat_toUpper c.toUpper, toNat_toUpper c]
  split_ifs <;> omega

theorem toLower_toLower (c : Char) : c.toLower.toLower = c.toLower := by
  rw [char_eq_iff_toNat, toNat_toLower c.toLower, toNat_toLower c]
  split_ifs <;> omega

theorem toNat_spaceChar : spaceChar.toNat = 32 :=
  char_toNat_ofNat (Or.inl (by omega))

theorem jsIsWhitespace_toUpper (c : Char) : jsIsWhitespace c.toUpper = jsIsWhitespace c := by
  unfold jsIsWhitespace
  rw [decide_eq_decide, toNat_toUpper]
  split_ifs with h
  · unfold wsCode; omega
  · exact Iff.rfl

theorem toUpper_eq_space_iff (c : Char) : c.toUpper = spaceChar ↔ c = spaceChar := by
  rw [char_eq_iff_toNat, char_eq_iff_toNat, toNat_spaceChar, toNat_toUpper]
  split_ifs with h <;> omega

theorem space_is_jsWhitespace : jsIsWhitespace spaceChar = true := by
  unfold jsIsWhitespace
  rw [toNat_spaceChar]
  decide

theorem ne_space_of_not_ws {c : Char} (h : jsIsWhitespace c = false) : c ≠ spaceChar := by
  intro hc
  rw [hc, space_is_jsWhitespace] at h
  cases h

/-! ### Lemmas about the JavaScript split / join / trim model -/

theorem jsSplit_nil (sep : Char) : jsSplit sep [] = [[]] := rfl

theorem jsSplit_cons (sep c : Char) (cs : JStr) :
    jsSplit sep (c :: cs) =
      if c = sep then [] :: jsSplit sep cs
      else (c :: (jsSplit sep cs).headD []) :: (jsSplit sep cs).tail := rfl

theorem jsSplit_ne_nil (sep : Char) (s : JStr) : jsSplit sep s ≠ [] := by
  cases s with
  | nil => simp [jsSplit_nil]
  | cons c cs =>
    rw [jsSplit_cons]
    split_ifs <;> simp

theorem not_sep_of_mem_jsSplit {sep : Char} {s w : JStr} (hw : w ∈ jsSplit sep s) :
    sep ∉ w := by
  induction s generalizing w with
  | nil =>
    rw [jsSplit_nil] at hw
    simp only [List.mem_singleton] at hw
    subst hw
    simp
  | cons c cs ih =>
    rw [jsSplit_cons] at hw
    by_cases hc : c = sep
    · rw [if_pos hc] at hw
      rcases List.mem_cons.mp hw with h | h
      · subst h; simp
      · exact ih h
    · rw [if_neg hc] at hw
      cases hr : jsSplit sep cs with
      | nil => exact absurd hr (jsSplit_ne_nil sep cs)
      | cons h0 t0 =>
        rw [hr] at hw
        have hh0 : h0 ∈ jsSplit sep cs := by rw [hr]; exact List.mem_cons_self h0 t0
        rcases List.mem_cons.mp hw with h | h
        · subst h
          intro hmem
          rcases List.mem_cons.mp hmem with h | h
          · exact hc h.symm
          · exact (ih hh0) h
        · exact ih (by rw [hr]; exact List.mem_cons_of_mem h0 h)

theorem jsSplit_of_not_mem {sep : Char} {w : JStr} (h : sep ∉ w) : jsSplit sep w = [w] := by
  induction w with
  | nil => exact jsSplit_nil sep
  | cons c cs ih =>
    have hc : c ≠ sep := fun hc => h (hc ▸ List.mem_cons_self c cs)
    have hcs : sep ∉ cs := fun hm => h (List.mem_cons_of_mem c hm)
    rw [jsSplit_cons, if_neg hc, ih hcs]
    rfl

theorem jsSplit_append {sep : Char} {w : JStr} (r : JStr) (h : sep ∉ w) :
    jsSplit sep (w ++ sep :: r) = w :: jsSplit sep r := by
  induction w with
  | nil =>
    rw [List.nil_append, jsSplit_cons, if_pos rfl]
  | cons c cs ih =>
    have hc : c ≠ sep := fun hc => h (hc ▸ List.mem_cons_self c cs)
    have hcs : sep ∉ cs := fun hm => h (List.mem_cons_of_mem c hm)
    rw [List.cons_append, jsSplit_cons, if_neg hc, ih hcs]
    rfl

theorem jsJoin_nil (sep : Char) : jsJoin sep [] = [] := rfl

theorem jsJoin_single (sep : Char) (w : JStr) : jsJoin sep [w] = w := rfl

theorem jsJoin_cons_cons (sep : Char) (w x : JStr) (ws : List JStr) :
    jsJoin sep (w :: x :: ws) = w ++ sep :: jsJoin sep (x :: ws) := rfl

theorem jsSplit_jsJoin {sep : Char} {ws : List JStr} (hne : ws ≠ [])
    (h : ∀ w ∈ ws, sep ∉ w) : jsSplit sep (jsJoin sep ws) = ws := by
  induction ws with
  | nil => exact absurd rfl hne
  | cons w ws ih =>
    cases ws with
    | nil =>
      rw [jsJoin_single]
      exact jsSplit_of_not_mem (h w (List.mem_cons_self w []))
    | cons x ws2 =>
      rw [jsJoin_cons_cons,
        jsSplit_append _ (h w (List.mem_cons_self w (x :: ws2))),
        ih (by simp) (fun v hv => h v (List.mem_cons_of_mem w hv))]

theorem jsSplit_cons_of_ne {sep c : Char} (cs : JStr) (hc : c ≠ sep) :
    ∃ t ts, jsSplit sep (c :: cs) = (c :: t) :: ts := by
  cases hr : jsSplit sep cs with
  | nil => exact absurd hr (jsSplit_ne_nil sep cs)
  | cons h0 t0 =>
    refine ⟨h0, t0, ?_⟩
    rw [jsSplit_cons, if_neg hc, hr]
    rfl

theorem jsSplit_getLast {sep : Char} {s : JStr} {c : Char}
    (hL : s.getLast? = some c) (hc : c ≠ sep) :
    ∃ ws w, jsSplit sep s = ws ++ [w] ∧ w.getLast? = some c := by
  induction s with
  | nil => simp at hL
  | cons c0 s ih =>
    cases s with
    | nil =>
      simp only [List.getLast?_singleton, Option.some.injEq] at hL
      subst hL
      refine ⟨[], [c0], ?_, by simp⟩
      rw [jsSplit_cons, if_neg hc, jsSplit_nil]
      rfl
    | cons c1 s1 =>
      rw [List.getLast?_cons_cons] at hL
      obtain ⟨ws, w, hsplit, hwl⟩ := ih hL
      have hwne : w ≠ [] := by
        intro hw
        rw [hw] at hwl
        simp at hwl
      rw [jsSplit_cons, hsplit]
      by_cases hc0 : c0 = sep
      · rw [if_pos hc0]
        exact ⟨[] :: ws, w, rfl, hwl⟩
      · rw [if_neg hc0]
        cases ws with
        | nil =>
          refine ⟨[], c0 :: w, by simp, ?_⟩
          cases w with
          | nil => exact absurd rfl hwne
          | cons a l => rw [List.getLast?_cons_cons]; exact hwl
        | cons v vs =>
          exact ⟨(c0 :: v) :: vs, w, by simp, hwl⟩

theorem jsJoin_head {sep c : Char} (w : JStr) (ws : List JStr) :
    (jsJoin sep ((c :: w) :: ws)).head? = some c := by
  cases ws with
  | nil => rw [jsJoin_single]; rfl
  | cons x ws2 => rw [jsJoin_cons_cons]; rfl

theorem jsJoin_ne_nil {sep : Char} {w : JStr} (hw : w ≠ []) (ws : List JStr) :
    jsJoin sep (w :: ws) ≠ [] := by
  cases ws with
  | nil => rw [jsJoin_single]; exact hw
  | cons x ws2 =>
    rw [jsJoin_cons_cons]
    simp

theorem jsJoin_getLast {sep : Char} {w : JStr} (hw : w ≠ []) :
    ∀ ws : List JStr, (∀ v ∈ ws, v ≠ []) →
      (jsJoin sep (ws ++ [w])).getLast? = w.getLast? := by
  intro ws
  induction ws with
  | nil =>
    intro _
    rw [List.nil_append, jsJoin_single]
  | cons v vs ih =>
    intro hall
    have hvs : ∀ u ∈ vs, u ≠ [] := fun u hu => hall u (List.mem_cons_of_mem v hu)
    have hrest : vs ++ [w] ≠ [] := by simp
    cases hx : vs ++ [w] with
    | nil => exact absurd hx hrest
    | cons x l =>
      have hxne : x ≠ [] := by
        cases vs with
        | nil =>
          simp only [List.nil_append, List.cons.injEq] at hx
          rw [← hx.1]
          exact hw
        | cons u us =>
          simp only [List.cons_append, List.cons.injEq] at hx
          have hu := hall u (List.mem_cons_of_mem v (List.mem_cons_self u us))
          rw [← hx.1]
          exact hu
      rw [List.cons_append, hx, jsJoin_cons_cons, List.getLast?_append]
      have hjoin : (sep :: jsJoin sep (x :: l)).getLast? = (jsJoin sep (x :: l)).getLast? := by
        cases hj : jsJoin sep (x :: l) with
        | nil => exact absurd hj (jsJoin_ne_nil hxne l)
        | cons a l2 => rw [List.getLast?_cons_cons]
      rw [hjoin, ← hx, ih hvs]
      cases w with
      | nil => exact absurd rfl hw
      | cons a as =>
        rw [List.getLast?_cons]
        rfl

theorem head_dropWhile_false {p : Char → Bool} {l : JStr} {c : Char}
    (h : (l.dropWhile p).head? = some c) : p c = false := by
  induction l with
  | nil => simp at h
  | cons a l ih =>
    by_cases ha : p a
    · rw [List.dropWhile_cons_of_pos ha] at h
      exact ih h
    · rw [List.dropWhile_cons_of_neg ha] at h
      simp only [List.head?_cons, Option.some.injEq] at h
      subst h
      exact Bool.not_eq_true _ ▸ (by simpa using ha)

theorem dropWhile_eq_self_of_head {p : Char → Bool} {l : JStr}
    (h : ∀ c, l.head? = some c → p c = false) : l.dropWhile p = l := by
  cases l with
  | nil => rfl
  | cons a l =>
    have := h a rfl
    rw [List.dropWhile_cons_of_neg (by rw [this]; exact Bool.false_ne_true)]

theorem getLast_dropWhile {p : Char → Bool} {l : JStr}
    (h : l.dropWhile p ≠ []) : (l.dropWhile p).getLast? = l.getLast? := by
  induction l with
  | nil => simp at h
  | cons a l ih =>
    by_cases ha : p a
    · rw [List.dropWhile_cons_of_pos ha] at h ⊢
      have hl : l ≠ [] := by
        intro hl
        rw [hl] at h
        simp at h
      rw [ih h]
      cases l with
      | nil => exact absurd rfl hl
      | cons b l2 => rw [List.getLast?_cons_cons]
    · rw [List.dropWhile_cons_of_neg ha]

theorem jsTrim_head_not_ws {s : JStr} {c : Char} (h : (jsTrim s).head? = some c) :
    jsIsWhitespace c = false := by
  unfold jsTrim at h
  rw [List.head?_reverse] at h
  have hne : (s.dropWhile jsIsWhitespace).reverse.dropWhile jsIsWhitespace ≠ [] := by
    intro h0
    rw [h0] at h
    simp at h
  rw [getLast_dropWhile hne, List.getLast?_reverse] at h
  exact head_dropWhile_false h

theorem jsTrim_getLast_not_ws {s : JStr} {c : Char} (h : (jsTrim s).getLast? = some c) :
    jsIsWhitespace c = false := by
  unfold jsTrim at h
  rw [List.getLast?_reverse] at h
  exact head_dropWhile_false h

theorem jsTrim_eq_self {s : JStr}
    (hh : ∀ c, s.head? = some c → jsIsWhitespace c = false)
    (hl : ∀ c, s.getLast? = some c → jsIsWhitespace c = false) : jsTrim s = s := by
  unfold jsTrim
  rw [dropWhile_eq_self_of_head hh]
  rw [dropWhile_eq_self_of_head (fun c hc => hl c (by rwa [List.head?_reverse] at hc))]
  exact List.reverse_reverse s

theorem capWords_nil : capWords [] = some [] := rfl

theorem capWords_cons (w : JStr) (ws : List JStr) :
    capWords (w :: ws) =
      match capitalizeWord w, capWords ws with
      | some w2, some ws2 => some (w2 :: ws2)
      | _, _ => none := rfl

theorem capWords_cons_some {w : JStr} {ws : List JStr} {ws' : List JStr}
    (h : capWords (w :: ws) = some ws') :
    ∃ w2 ws2, capitalizeWord w = some w2 ∧ capWords ws = some ws2 ∧ ws' = w2 :: ws2 := by
  rw [capWords_cons] at h
  cases hw : capitalizeWord w with
  | none => rw [hw] at h; simp at h
  | some w2 =>
    cases hws : capWords ws with
    | none => rw [hw, hws] at h; simp at h
    | some ws2 =>
      rw [hw, hws] at h
      simp only [Option.some.injEq] at h
      exact ⟨w2, ws2, rfl, rfl, h.symm⟩

theorem capWords_mem {ws ws' : List JStr} (h : capWords ws = some ws') :
    ∀ w' ∈ ws', ∃ w ∈ ws, capitalizeWord w = some w' := by
  induction ws generalizing ws' with
  | nil =>
    rw [capWords_nil] at h
    simp only [Option.some.injEq] at h
    subst h
    simp
  | cons w ws ih =>
    obtain ⟨w2, ws2, hw, hws, rfl⟩ := capWords_cons_some h
    intro w' hw'
    rcases List.mem_cons.mp hw' with h1 | h1
    · exact ⟨w, List.mem_cons_self w ws, h1 ▸ hw⟩
    · obtain ⟨w0, hw0, hcap⟩ := ih hws w' h1
      exact ⟨w0, List.mem_cons_of_mem w hw0, hcap⟩

theorem capWords_fix {ws : List JStr} (h : ∀ w ∈ ws, capitalizeWord w = some w) :
    capWords ws = some ws := by
  induction ws with
  | nil => rfl
  | cons w ws ih =>
    rw [capWords_cons, h w (List.mem_cons_self w ws),
      ih (fun v hv => h v (List.mem_cons_of_mem w hv))]

theorem capWords_append_singleton {ws : List JStr} {w : JStr} {ws' : List JStr}
    (h : capWords (ws ++ [w]) = some ws') :
    ∃ ws2 w2, ws' = ws2 ++ [w2] ∧ capitalizeWord w = some w2 := by
  induction ws generalizing ws' with
  | nil =>
    rw [List.nil_append] at h
    obtain ⟨w2, ws2, hw, hws, rfl⟩ := capWords_cons_some h
    rw [capWords_nil] at hws
    simp only [Option.some.injEq] at hws
    subst hws
    exact ⟨[], w2, rfl, hw⟩
  | cons v vs ih =>
    rw [List.cons_append] at h
    obtain ⟨v2, ws2, hv, hws, rfl⟩ := capWords_cons_some h
    obtain ⟨ws3, w2, rfl, hcap⟩ := ih hws
    exact ⟨v2 :: ws3, w2, rfl, hcap⟩

theorem capitalizeWord_eq_some {w w' : JStr} (h : capitalizeWord w = some w') :
    ∃ c cs, w = c :: cs ∧ w' = c.toUpper :: cs := by
  cases w with
  | nil => simp [capitalizeWord] at h
  | cons c cs =>
    simp only [capitalizeWord, Option.some.injEq] at h
    exact ⟨c, cs, rfl, h.symm⟩

theorem capitalizeWord_idem {w w' : JStr} (h : capitalizeWord w = some w') :
    capitalizeWord w' = some w' := by
  obtain ⟨c, cs, rfl, rfl⟩ := capitalizeWord_eq_some h
  simp only [capitalizeWord, Option.some.injEq]
  rw [toUpper_toUpper]

theorem exists_getLast_of_ne_nil {l : JStr} (h : l ≠ []) : ∃ c, l.getLast? = some c := by
  induction l with
  | nil => exact absurd rfl h
  | cons a l ih =>
    cases l with
    | nil => exact ⟨a, rfl⟩
    | cons b l2 =>
      obtain ⟨c, hc⟩ := ih (by simp)
      exact ⟨c, by rw [List.getLast?_cons_cons]; exact hc⟩

/-- C6: the name and email normalizers are idempotent.  For the name
normalizer this holds on its domain of definition — whenever the transform
returns a value (rather than throwing) on `x`, it returns that same value
unchanged when applied again.  The email normalizer (the `toLowerCase`
transform) is total and idempotent. -/
theorem normalizers_idempotent :
    (∀ x y : JStr, normalizeName x = some y → normalizeName y = some y) ∧
    (∀ e : JStr, jsToLower (jsToLower e) = jsToLower e) := by
  constructor
  · intro x y h
    unfold normalizeName at h
    rw [Option.map_eq_some'] at h
    obtain ⟨ws', hcw, hy⟩ := h
    have hws' : ∀ w' ∈ ws', capitalizeWord w' = some w' ∧ w' ≠ [] ∧ spaceChar ∉ w' := by
      intro w' hw'
      obtain ⟨w, hwmem, hcap⟩ := capWords_mem hcw w' hw'
      have hsp : spaceChar ∉ w := not_sep_of_mem_jsSplit hwmem
      obtain ⟨c, cs, rfl, rfl⟩ := capitalizeWord_eq_some hcap
      refine ⟨capitalizeWord_idem hcap, by simp, ?_⟩
      intro hmem
      rcases List.mem_cons.mp hmem with h1 | h1
      · have hc : c ≠ spaceChar := fun hc => hsp (hc ▸ List.mem_cons_self c cs)
        exact hc ((toUpper_eq_space_iff c).mp h1.symm)
      · exact hsp (List.mem_cons_of_mem c h1)
    have hmne : jsTrim x ≠ [] := by
      intro h0
      rw [h0, jsSplit_nil] at hcw
      obtain ⟨w2, ws2, hw, -, -⟩ := capWords_cons_some hcw
      simp [capitalizeWord] at hw
    cases hmc : jsTrim x with
    | nil => exact absurd hmc hmne
    | cons c0 mr =>
    have hc0ws : jsIsWhitespace c0 = false := jsTrim_head_not_ws (by rw [hmc]; rfl)
    have hc0sp : c0 ≠ spaceChar := ne_space_of_not_ws hc0ws
    obtain ⟨t, ts, hsplit0⟩ := jsSplit_cons_of_ne mr hc0sp
    have hcwH := hcw
    rw [hmc, hsplit0] at hcwH
    obtain ⟨w2, ws2, hw2, hws2, hws'eq⟩ := capWords_cons_some hcwH
    have hw2eq : w2 = c0.toUpper :: t := by
      simp only [capitalizeWord, Option.some.injEq] at hw2
      exact hw2.symm
    have hyhead : y.head? = some c0.toUpper := by
      rw [← hy, hws'eq, hw2eq]
      exact jsJoin_head t ws2
    have hyheadws : ∀ c, y.head? = some c → jsIsWhitespace c = false := by
      intro c hc
      rw [hyhead] at hc
      injection hc with hc
      rw [← hc, jsIsWhitespace_toUpper]
      exact hc0ws
    obtain ⟨cL, hcl⟩ := exists_getLast_of_ne_nil hmne
    have hclws : jsIsWhitespace cL = false := jsTrim_getLast_not_ws hcl
    have hclsp : cL ≠ spaceChar := ne_space_of_not_ws hclws
    obtain ⟨ws0, w, hsplitL, hwlast⟩ := jsSplit_getLast hcl hclsp
    have hcwL := hcw
    rw [hsplitL] at hcwL
    obtain ⟨ws1, w2L, hws1eq, hcapL⟩ := capWords_append_singleton hcwL
    obtain ⟨cw, cws, hweq, hw2Leq⟩ := capitalizeWord_eq_some hcapL
    have hylastws : ∀ c, y.getLast? = some c → jsIsWhitespace c = false := by
      intro c hc
      rw [← hy, hws1eq] at hc
      rw [jsJoin_getLast (by rw [hw2Leq]; simp) ws1
        (fun v hv => (hws' v (hws1eq ▸ List.mem_append_left [w2L] hv)).2.1)] at hc
      rw [hw2Leq] at hc
      cases cws with
      | nil =>
        rw [hweq] at hwlast
        simp only [List.getLast?_singleton, Option.some.injEq] at hwlast hc
        rw [← hc, jsIsWhitespace_toUpper, hwlast]
        exact hclws
      | cons a l =>
        rw [List.getLast?_cons_cons] at hc
        rw [hweq, List.getLast?_cons_cons] at hwlast
        rw [hwlast] at hc
        injection hc with hc
        rw [← hc]
        exact hclws
    have htrim : jsTrim y = y := jsTrim_eq_self hyheadws hylastws
    have hsplity : jsSplit spaceChar y = ws' := by
      rw [← hy]
      exact jsSplit_jsJoin (by rw [hws'eq]; simp)
        (fun w' hw' => (hws' w' hw').2.2)
    unfold normalizeName
    rw [htrim, hsplity, capWords_fix (fun w' hw' => (hws' w' hw').1),
      Option.map_some', hy]
  · intro e
    unfold jsToLower
    rw [List.map_map]
    exact List.map_congr_left (fun c _ => toLower_toLower c)

/-- Witness for C6: normalizing the already-normalized result of the name
" ana paula " is a fixed point, and so is lower-casing. -/
theorem normalizers_idempotent_witness :
    normalizeName (("Ana Paula").data) = some (("Ana Paula").data) :=
  normalizers_idempotent.1 ((" ana paula ").data) (("Ana Paula").data) (by decide)

theorem combine_techs_errs (ra : FieldResult FileData) (rn re rp : FieldResult JStr)
    {es : List ValidationError} {err : ValidationError} (hmem : err ∈ es) :
    (∀ u, combineResults ra rn re rp (.errs es) ≠ .valid u) ∧
    (∀ es', combineResults ra rn re rp (.errs es) = .invalid es' → err ∈ es') := by
  cases ra <;> cases rn <;> cases re <;> cases rp <;>
    simp_all [combineResults, FieldResult.isThrown, FieldResult.errors]

/-- C5: an input whose `techs` list has fewer than 2 elements never
validates, and whenever the parse reports issues the `techs` minimum-length
issue is among them; concretely, an otherwise fully valid input with the
single technology "React" is rejected with exactly that issue. -/
theorem techs_fewer_than_two_always_too_few :
    (∀ input : FormInput, input.techs.length < 2 →
      (∀ u, parseUser input ≠ .valid u) ∧
      (∀ es, parseUser input = .invalid es →
        (⟨FieldPath.techs, "Insira pelo menos 2 tecnologias"⟩ : ValidationError) ∈ es)) ∧
    parseUser ⟨some ⟨"p.png", 100, "image/png"⟩, ("ana").data, ("ana@gmail.com").data,
        ("123456").data, [⟨("React").data⟩]⟩ =
      .invalid [⟨FieldPath.techs, "Insira pelo menos 2 tecnologias"⟩] := by
  constructor
  · intro input h
    have ht : parseTechs000 input.techs =
        .errs (⟨FieldPath.techs, "Insira pelo menos 2 tecnologias"⟩ ::
          techTitleErrsFrom 0 input.techs) := by
      unfold parseTechs000
      rw [if_pos h]
      rfl
    unfold parseUser
    rw [ht]
    exact combine_techs_errs _ _ _ _ (List.mem_cons_self _ _)
  · decide

/-- Witness for C5: a concrete otherwise valid input with one technology is
not accepted. -/
theorem techs_fewer_than_two_always_too_few_witness :
    parseUser ⟨some ⟨"p.png", 100, "image/png"⟩, ("bob").data, ("bob@gmail.com").data,
        ("123456").data, [⟨("Vue").data⟩]⟩ ≠
      .valid ⟨⟨"p.png", 100, "image/png"⟩, ("Bob").data, ("bob@gmail.com").data,
        ("123456").data, [⟨("Vue").data⟩]⟩ :=
  (techs_fewer_than_two_always_too_few.1 _ (by decide)).1 _

theorem errors_of_ite {α : Type} (es : List ValidationError) (v : α) :
    FieldResult.errors (if es.isEmpty then FieldResult.ok v else FieldResult.errs es) = es := by
  by_cases h : es.isEmpty
  · rw [if_pos h, List.isEmpty_iff.mp h]
    rfl
  · rw [if_neg h]
    rfl

theorem lookaheadCls_eq_any {cls : Char → Bool} {s : JStr}
    (h : ∀ c ∈ s, isLineTerm c = false) : lookaheadCls cls s = s.any cls := by
  induction s with
  | nil => rfl
  | cons c rest ih =>
    have hc := h c (List.mem_cons_self c rest)
    show (cls c || (!isLineTerm c && lookaheadCls cls rest)) = _
    rw [hc, ih (fun d hd => h d (List.mem_cons_of_mem c hd)), List.any_cons]
    rfl

theorem lookaheadLen8_eq {s : JStr} (h : ∀ c ∈ s, isLineTerm c = false) :
    lookaheadLen8 s = decide (8 ≤ s.length) := by
  unfold lookaheadLen8
  have hall : (s.take 8).all (fun c => !isLineTerm c) = true := by
    rw [List.all_eq_true]
    intro c hc
    rw [h c (List.take_subset 8 s hc)]
    rfl
  rw [hall, Bool.and_true]

/-- C7 (amended): for every password free of line terminators — the only
values an HTML password input can hold — the strength signal is true exactly
when the string contains a lowercase letter, an uppercase letter, a digit
and a character outside `[A-Za-z0-9]`, and has length at least 8; and the
signal does not gate validation: a concrete input whose password is weak
still parses to `valid`. -/
theorem password_strength_characterization :
    (∀ s : JStr, (∀ c ∈ s, isLineTerm c = false) →
      (isPasswordStrong s = true ↔
        (s.any lowerCls = true ∧ s.any upperCls = true ∧ s.any digitCls = true ∧
          s.any symbolCls = true ∧ 8 ≤ s.length))) ∧
    (isPasswordStrong (("123456").data) = false ∧
      parseUser ⟨some ⟨"p.png", 100, "image/png"⟩, ("ana").data, ("ana@gmail.com").data,
          ("123456").data, [⟨("React").data⟩, ⟨("Vue").data⟩]⟩ =
        .valid ⟨⟨"p.png", 100, "image/png"⟩, ("Ana").data, ("ana@gmail.com").data,
          ("123456").data, [⟨("React").data⟩, ⟨("Vue").data⟩]⟩) := by
  refine ⟨?_, by decide, by decide⟩
  intro s h
  constructor
  · intro hs
    unfold isPasswordStrong at hs
    rw [List.any_eq_true] at hs
    obtain ⟨p, hp, hstrong⟩ := hs
    have hdrop : ∀ c ∈ s.drop p, isLineTerm c = false :=
      fun c hc => h c (List.drop_subset p s hc)
    unfold strongAt at hstrong
    simp only [Bool.and_eq_true] at hstrong
    obtain ⟨⟨⟨⟨h1, h2⟩, h3⟩, h4⟩, h5⟩ := hstrong
    rw [lookaheadCls_eq_any hdrop] at h1 h2 h3 h4
    rw [lookaheadLen8_eq hdrop] at h5
    have hlen : 8 ≤ (s.drop p).length := by simpa using h5
    have hany : ∀ cls : Char → Bool, (s.drop p).any cls = true → s.any cls = true := by
      intro cls hc
      rw [List.any_eq_true] at hc ⊢
      obtain ⟨c, hcm, hcc⟩ := hc
      exact ⟨c, List.drop_subset p s hcm, hcc⟩
    refine ⟨hany _ h1, hany _ h2, hany _ h3, hany _ h4, ?_⟩
    rw [List.length_drop] at hlen
    omega
  · rintro ⟨h1, h2, h3, h4, h5⟩
    unfold isPasswordStrong
    rw [List.any_eq_true]
    refine ⟨0, List.mem_range.mpr (by omega), ?_⟩
    rw [List.drop_zero]
    unfold strongAt
    rw [lookaheadCls_eq_any h, lookaheadCls_eq_any h, lookaheadCls_eq_any h,
      lookaheadCls_eq_any h, lookaheadLen8_eq h, h1, h2, h3, h4]
    simp [h5]

/-- C7 counterexample: a password containing a line terminator satisfies all
five conditions of the claim (lowercase, uppercase, digit, symbol, length at
least 8) yet the regex-based strength signal is false, because the `.`s of
the `(?=.{8,})` lookahead cannot cross the newline. -/
theorem password_strength_newline_counterexample :
    (("aA1!xyz\n").data).any lowerCls = true ∧ (("aA1!xyz\n").data).any upperCls = true ∧
    (("aA1!xyz\n").data).any digitCls = true ∧ (("aA1!xyz\n").data).any symbolCls = true ∧
    8 ≤ (("aA1!xyz\n").data).length ∧ isPasswordStrong (("aA1!xyz\n").data) = false := by
  decide

/-- Witness for C7: a concrete newline-free password with all four character
classes and length 8 is reported strong. -/
theorem password_strength_characterization_witness :
    isPasswordStrong (("aA1!bcde").data) = true :=
  (password_strength_characterization.1 (("aA1!bcde").data) (by decide)).mpr (by decide)

/-- C8 (amended): in the part_000 variant the email field accepts exactly
the non-empty strings of valid email shape; the App.tsx variant additionally
requires the lower-cased value to end with "gmail.com". -/
theorem email_acceptance_characterization :
    (∀ e : JStr, (∃ v, parseEmail000 e = .ok v) ↔
      (e.isEmpty = false ∧ emailShape e = true)) ∧
    (∀ e : JStr, (∃ v, parseEmailApp e = .ok v) ↔
      (e.isEmpty = false ∧ emailShape e = true ∧
        jsEndsWith (jsToLower e) (("gmail.com").data) = true)) := by
  constructor
  · intro e
    unfold parseEmail000
    by_cases h1 : e.isEmpty <;> by_cases h2 : emailShape e <;> simp [h1, h2]
  · intro e
    unfold parseEmailApp
    by_cases h1 : e.isEmpty <;> by_cases h2 : emailShape e <;>
      by_cases h3 : jsEndsWith (jsToLower e) (("gmail.com").data) <;> simp [h1, h2, h3]

/-- C8 counterexample: a non-empty email of valid shape that is not a gmail
address is rejected by the App.tsx variant (with the gmail issue), although
the part_000 variant accepts it — so the claim that every non-empty string
of valid email shape passes in both schema variants is false. -/
theorem email_gmail_rule_counterexample :
    (("user@example.com").data).isEmpty = false ∧
    emailShape (("user@example.com").data) = true ∧
    parseEmailApp (("user@example.com").data) =
      .errs [⟨FieldPath.email, "O e-mail precisa ser gmail"⟩] ∧
    parseEmail000 (("user@example.com").data) = .ok (("user@example.com").data) := by
  decide

/-- C10: in the App.tsx schema variant a `techs` element passes exactly when
its title is nonempty and its knowledge value coerces to a number between 1
and 100 inclusive; an element lacking a coercible knowledge value is
rejected even with a nonempty title, the default element appended by
`addNewTech` is rejected, and a two-element list whose second element has
knowledge 0 fails at the array level. -/
theorem app_techs_require_knowledge :
    (∀ (i : Nat) (t : AppTech), parseTechApp i t = [] ↔
      (t.title.isEmpty = false ∧ ∃ k : ℚ, t.knowledge = some k ∧ 1 ≤ k ∧ k ≤ 100)) ∧
    parseTechApp 0 ⟨("React").data, none⟩ ≠ [] ∧
    parseTechApp 0 addNewTechDefault ≠ [] ∧
    parseTechsApp [⟨("React").data, some 50⟩, ⟨("Vue").data, some 0⟩] =
      .errs [⟨FieldPath.techKnowledge 1, "Number must be greater than or equal to 1"⟩] := by
  refine ⟨?_, by decide, by decide, by decide⟩
  intro i t
  unfold parseTechApp
  cases ht : t.knowledge with
  | none => by_cases h1 : t.title.isEmpty <;> simp [h1]
  | some k =>
    by_cases h1 : t.title.isEmpty <;> by_cases h2 : k < 1 <;> by_cases h3 : 100 < k <;>
      simp [h1, h2, h3] <;> exact ⟨by linarith, by linarith⟩

/-- C4 (code bug at the Missing rule): with no file present the avatar chain
throws a TypeError instead of reporting a Missing issue, because zod still
runs the size refinement — which dereferences `files.item(0)!` — after the
presence refinement failed; for a present file the TooLarge issue appears
exactly when the size exceeds `MAX_FILE_SIZE` and the UnsupportedType issue
exactly when the MIME type is not accepted, and the 6,000,000-byte png
yields exactly the TooLarge issue. -/
theorem avatar_rules_and_missing_crash :
    parseAvatar none = .thrown ∧
    (∀ f : FileData,
      ((⟨FieldPath.avatar, "Tamanho máximo de 5MB"⟩ : ValidationError) ∈
          (parseAvatar (some f)).errors ↔ MAX_FILE_SIZE < f.size) ∧
      ((⟨FieldPath.avatar, "Formato de imagem inválido"⟩ : ValidationError) ∈
          (parseAvatar (some f)).errors ↔
        ACCEPTED_IMAGE_TYPES.contains f.mimeType = false)) ∧
    parseAvatar (some ⟨"a.png", 6000000, "image/png"⟩) =
      .errs [⟨FieldPath.avatar, "Tamanho máximo de 5MB"⟩] := by
  refine ⟨rfl, ?_, by decide⟩
  intro f
  have herrs : (parseAvatar (some f)).errors =
      (if f.size ≤ MAX_FILE_SIZE then [] else [⟨FieldPath.avatar, "Tamanho máximo de 5MB"⟩])
      ++ (if ACCEPTED_IMAGE_TYPES.contains f.mimeType then []
          else [⟨FieldPath.avatar, "Formato de imagem inválido"⟩]) := by
    unfold parseAvatar
    exact errors_of_ite _ _
  rw [herrs]
  by_cases h1 : f.size ≤ MAX_FILE_SIZE <;>
    by_cases h2 : f.mimeType ∈ ACCEPTED_IMAGE_TYPES <;>
    simp [h1, h2] <;> omega

/-- C1 (code bug): an input on which every field satisfies its stated rule —
the avatar present, small and of accepted type, the name "ana  paula"
nonempty after trimming, the email of valid shape, the password of length 6,
two technologies with nonempty titles — makes the parse throw a TypeError
instead of returning Valid: the name transform splits on single spaces, the
double space yields an empty segment, and `word[0]` is undefined on it. -/
theorem createUserForm_throws_on_rule_satisfying_input :
    (jsTrim (("ana  paula").data)).isEmpty = false ∧
    emailShape (("ana@gmail.com").data) = true ∧
    6 ≤ (("123456").data).length ∧
    parseUser ⟨some ⟨"p.png", 100, "image/png"⟩, ("ana  paula").data,
        ("ana@gmail.com").data, ("123456").data,
        [⟨("React").data⟩, ⟨("Vue").data⟩]⟩ = .thrown := by
  decide

/-- C2 (code bug): the name transform throws on " ana  paula " (the empty
segment produced by the double space makes `word[0]` undefined) instead of
producing "Ana Paula"; on a single-spaced name the capitalization works as
described. -/
theorem name_transform_crashes_on_double_space :
    normalizeName ((" ana  paula ").data) = none ∧
    normalizeName (("ana paula").data) = some (("Ana Paula").data) := by
  decide

/-- C3 (code bug): the pipeline does not always return Valid or Invalid as
data — a whitespace-only name (which passes `nonempty`) and an absent
avatar file both make the parse throw a TypeError. -/
theorem pipeline_not_exception_free :
    parseUser ⟨some ⟨"p.png", 100, "image/png"⟩, ("   ").data, ("a@gmail.com").data,
        ("123456").data, [⟨("React").data⟩, ⟨("Vue").data⟩]⟩ = .thrown ∧
    parseUser ⟨none, ("ana").data, ("a@gmail.com").data, ("123456").data,
        [⟨("React").data⟩, ⟨("Vue").data⟩]⟩ = .thrown := by
  decide

/-- C9 (amended): `createUser` renders the validated payload unchanged
whatever the upload outcome was — the payload is neither discarded nor
altered — and in particular its observable result does not depend on the
upload outcome at all: no failure condition is reported. -/
theorem createUser_ignores_upload_outcome :
    (∀ (data : NormalizedUser) (res : UploadResult), createUser data res = renderUser data) ∧
    (∀ (data : NormalizedUser) (r1 r2 : UploadResult),
      createUser data r1 = createUser data r2) :=
  ⟨fun _ _ => rfl, fun _ _ _ => rfl⟩

/-- C9 counterexample: a rejected upload produces an observable outcome
identical to a successful one on the same payload — the failure is not
reported as any distinct condition. -/
theorem upload_failure_not_reported :
    createUser ⟨⟨"p.png", 100, "image/png"⟩, ("Ana").data, ("ana@gmail.com").data,
        ("123456").data, [⟨("React").data⟩, ⟨("Vue").data⟩]⟩
      ⟨none, some ("upload rejected")⟩ =
    createUser ⟨⟨"p.png", 100, "image/png"⟩, ("Ana").data, ("ana@gmail.com").data,
        ("123456").data, [⟨("React").data⟩, ⟨("Vue").data⟩]⟩
      ⟨some ("avatars/p.png"), none⟩ := rfl

end FormSpec
